import Mathlib

set_option maxRecDepth 10000

/-!
Verification development for the Drift-A-Tone generative synthesizer
(`driftatone.py`).  The Python source is shallowly embedded: float
arithmetic is idealized as exact real arithmetic over `ℝ`, numpy arrays
become `List ℝ`, the global key set becomes a `Finset String`, and the
wall clock is passed explicitly as a real-number argument.
-/

namespace DriftATone

/-- Audio sample rate, `sample_rate = 44100` in the source. -/
def sample_rate : ℝ := 44100

/-- The `base_frequencies` dict: voice id → base pitch in Hz.
Ids outside the four voices map to a default of `0` (the Python dict
would raise `KeyError`; such ids are never used). -/
def base_frequencies (k : String) : ℝ :=
  if k = "1" then 110 else if k = "2" then 220 else
  if k = "3" then 330 else if k = "4" then 440 else 0

/-- The four voice ids, i.e. the key set of `base_frequencies`. -/
def base_keys : Finset String := {"1", "2", "3", "4"}

/-- State of one `LorenzCircle` object: attractor coordinates, ODE
coefficients, entropy, the 512-sample pulse table, and the timestamp of
the last dynamics refresh. -/
@[ext]
structure LorenzCircle where
  x : ℝ
  y : ℝ
  z : ℝ
  sigma : ℝ
  rho : ℝ
  beta : ℝ
  entropy : ℝ
  pulse : List ℝ
  last_update : ℝ

/-- `LorenzCircle.__init__`: x = 0.1, y = z = 0, sigma = 10, rho = 28,
beta = 8/3, entropy = 0, pulse = zeros(512), last_update = the
construction time (passed explicitly as `t0`). -/
noncomputable def init_circle (t0 : ℝ) : LorenzCircle :=
  { x := 0.1, y := 0, z := 0, sigma := 10, rho := 28, beta := 8 / 3,
    entropy := 0, pulse := List.replicate 512 0, last_update := t0 }

/-- `LorenzCircle.step(dt)`: one explicit-Euler step of the Lorenz ODE.
The three derivatives are computed from the pre-step state, then each
coordinate is incremented. -/
noncomputable def LorenzCircle.step (s : LorenzCircle) (dt : ℝ) : LorenzCircle :=
  { s with
    x := s.x + s.sigma * (s.y - s.x) * dt
    y := s.y + (s.x * (s.rho - s.z) - s.y) * dt
    z := s.z + (s.x * s.y - s.beta * s.z) * dt }

/-- `LorenzCircle.update_entropy`: entropy := min(entropy + 0.02, 1.0),
then sigma/rho/beta are recomputed from the new entropy. -/
noncomputable def LorenzCircle.update_entropy (s : LorenzCircle) : LorenzCircle :=
  { s with
    entropy := min (s.entropy + 0.02) 1
    sigma := 10 + 6 * min (s.entropy + 0.02) 1
    rho := 28 + 20 * min (s.entropy + 0.02) 1
    beta := 8 / 3 + 2.5 * min (s.entropy + 0.02) 1 }

/-- The recording loop of `build_pulse`: `for _ in range(n): step(dt);
xs.append(x); ys.append(y); zs.append(z)`.  Returns the state after the
loop together with the three recorded series. -/
noncomputable def record (dt : ℝ) : ℕ → LorenzCircle → LorenzCircle × (List ℝ × List ℝ × List ℝ)
  | 0, s => (s, ([], [], []))
  | n + 1, s =>
    let s1 := s.step dt
    let r := record dt n s1
    (r.1, (s1.x :: r.2.1, s1.y :: r.2.2.1, s1.z :: r.2.2.2))

/-- `np.mean` of a list. -/
noncomputable def mean (l : List ℝ) : ℝ := l.sum / l.length

/-- `np.max(np.abs(a))` for a numpy array: the maximum absolute value,
with `0` for an empty list (the source only applies it to non-empty
512-sample arrays). -/
def maxAbs (l : List ℝ) : ℝ := l.foldr (fun v m => max |v| m) 0

/-- The stepped-table construction of `build_pulse` (lines 84–89):
`third = 512 // 3`; the first `third` samples get `n0`, the next
`third` get `n1`, and the remaining `512 - 2*third` get `n2`. -/
def build_stepped (n0 n1 n2 : ℝ) : List ℝ :=
  List.replicate (512 / 3) n0 ++ List.replicate (512 / 3) n1 ++
    List.replicate (512 - 2 * (512 / 3)) n2

/-- `np.hanning M`: the `M`-tap Hann window,
`w[n] = 0.5 - 0.5*cos(2*pi*n/(M-1))`. -/
noncomputable def hanning (M : ℕ) : List ℝ :=
  (List.range M).map fun n : ℕ =>
    1 / 2 - 1 / 2 * Real.cos (2 * Real.pi * (n : ℝ) / ((M : ℝ) - 1))

/-- Array lookup at a signed index with zero padding outside the array,
as used by zero-padded convolution. -/
def agetZ (a : List ℝ) (t : ℤ) : ℝ :=
  if 0 ≤ t ∧ t < (a.length : ℤ) then a.getD t.toNat 0 else 0

/-- `np.convolve(a, v, mode='same')` for `v` of odd length not longer
than `a`: the centered `a.length` samples of the zero-padded full
convolution. -/
noncomputable def convSame (a v : List ℝ) : List ℝ :=
  (List.range a.length).map fun i : ℕ =>
    ∑ j ∈ Finset.range v.length,
      v.getD j 0 * agetZ a ((i : ℤ) + ((v.length : ℤ) - 1) / 2 - (j : ℤ))

/-- The waveshaping step `pulse += entropy * 0.4 * np.power(pulse, 3)`:
the cubic term is computed from the pre-assignment table. -/
noncomputable def shape_cubic (e : ℝ) (l : List ℝ) : List ℝ :=
  l.map fun p => p + e * 0.4 * p ^ 3

/-- The epsilon-guarded normalization
`pulse /= np.max(np.abs(pulse)) + 1e-6`. -/
noncomputable def normalize_eps (l : List ℝ) : List ℝ :=
  l.map fun p => p / (maxAbs l + 1e-6)

/-- The pulse-table pipeline of `build_pulse` applied to the recorded
series: nodes are the three series means, centered and
epsilon-normalized; the stepped table is smoothed with a 21-tap Hann
window ('same' convolution), cubic-distorted, and renormalized. -/
noncomputable def pulse_from_series (e : ℝ) (xs ys zs : List ℝ) : List ℝ :=
  let bottom := mean xs
  let center := mean ys
  let crest := mean zs
  let m := (bottom + center + crest) / 3
  let d := max (max |bottom - m| |center - m|) |crest - m| + 1e-6
  normalize_eps (shape_cubic e
    (convSame (build_stepped ((bottom - m) / d) ((center - m) / d) ((crest - m) / d))
      (hanning 21)))

/-- `LorenzCircle.build_pulse`: run the recording loop for 400 steps of
`dt = 0.005` (advancing x, y, z), derive the new pulse table from the
recorded series, and replace the `pulse` field.  `self.entropy` is read
after the loop; `step` does not touch it, so it equals the entry value. -/
noncomputable def LorenzCircle.build_pulse (s : LorenzCircle) : LorenzCircle :=
  let r := record 0.005 400 s
  { r.1 with pulse := pulse_from_series s.entropy r.2.1 r.2.2.1 r.2.2.2 }

/-- `LorenzCircle.maybe_update`: if more than 2 seconds elapsed since
`last_update`, run `update_entropy` then `build_pulse` and stamp
`last_update` with the current time (`now`, passed explicitly). -/
noncomputable def LorenzCircle.maybe_update (now : ℝ) (s : LorenzCircle) : LorenzCircle :=
  if 2 < now - s.last_update then
    { (s.update_entropy).build_pulse with last_update := now }
  else s

/-- Python `int()` on a real value: truncation toward zero. -/
noncomputable def pyInt (x : ℝ) : ℤ :=
  if 0 ≤ x then ⌊x⌋ else -⌊-x⌋

/-- Lines 130–131 of the callback:
`samples_per_cycle = max(16, int(sample_rate / freq))`. -/
noncomputable def samples_per_cycle (freq : ℝ) : ℕ :=
  max 16 (pyInt (sample_rate / freq)).toNat

/-- `np.interp(t, np.arange(len(fp)), fp)`: clamped linear
interpolation over the integer grid `0, 1, …, len(fp) - 1`. -/
noncomputable def interp (fp : List ℝ) (t : ℝ) : ℝ :=
  if fp = [] then 0
  else if t ≤ 0 then fp.headD 0
  else if ((fp.length : ℝ) - 1) ≤ t then fp.getLastD 0
  else
    fp.getD ⌊t⌋.toNat 0 + (t - ⌊t⌋) * (fp.getD (⌊t⌋.toNat + 1) 0 - fp.getD ⌊t⌋.toNat 0)

/-- Lines 133–137: resample the pulse table to one cycle of
`samples_per_cycle freq` samples, evaluating `np.interp` at
`np.linspace(0, len(pulse), samples_per_cycle, endpoint=False)`,
whose `i`-th point is `i * len(pulse) / samples_per_cycle`. -/
noncomputable def resample_cycle (freq : ℝ) (pulse : List ℝ) : List ℝ :=
  (List.range (samples_per_cycle freq)).map fun i : ℕ =>
    interp pulse ((i : ℝ) * (pulse.length : ℝ) / (samples_per_cycle freq : ℝ))

/-- `int(np.ceil(frames / spc))` for natural `frames` and positive
`spc`, written with natural-number arithmetic as `(frames + spc - 1) / spc`. -/
def repeats (frames spc : ℕ) : ℕ := (frames + spc - 1) / spc

/-- Lines 139–140: `wave = np.tile(cycle, repeats)[:frames]`. -/
noncomputable def voice_wave (frames : ℕ) (freq : ℝ) (pulse : List ℝ) : List ℝ :=
  List.take frames
    (List.flatten (List.replicate (repeats frames (samples_per_cycle freq)) (resample_cycle freq pulse)))

/-- The mixing core of `audio_callback` (lines 118–146), parameterized
by the per-voice data read after `maybe_update`: if the snapshot is
empty, the output stays hard silence; otherwise the per-voice tiled
waves are summed elementwise into `total_wave` and divided by the
number of active voices. -/
noncomputable def render_block (frames : ℕ) (voices : List (ℝ × List ℝ)) : List ℝ :=
  if voices = [] then List.replicate frames 0
  else
    (voices.foldl (fun acc v => List.zipWith (· + ·) acc (voice_wave frames v.1 v.2))
        (List.replicate frames 0)).map
      fun t => t / (voices.length : ℝ)

/-- Line 127: `freq = base_frequencies[key] * 2 ** shift`. -/
noncomputable def freq_of (k : String) (shift : ℝ) : ℝ :=
  base_frequencies k * (2 : ℝ) ^ shift

/-- `audio_callback` with the snapshot of `active_keys` and
`pitch_shift` and the wall-clock time passed explicitly: each active
voice is refreshed via `maybe_update`, then rendered and mixed. -/
noncomputable def audio_callback (frames : ℕ) (now shift : ℝ) (keys : List String)
    (circles : String → LorenzCircle) : List ℝ :=
  render_block frames
    (keys.map fun k => (freq_of k shift, (LorenzCircle.maybe_update now (circles k)).pulse))

/-- `on_press` for a voice key (lines 203–205): add the key to
`active_keys` if it is one of the four voice ids, otherwise leave the
set unchanged. -/
def activate (k : String) (s : Finset String) : Finset String :=
  if k ∈ base_keys then insert k s else s

/-- `on_release` (lines 220–225): remove the key from `active_keys` if
present, otherwise leave the set unchanged. -/
def deactivate (k : String) (s : Finset String) : Finset String :=
  if k ∈ s then s.erase k else s

/-- The averaged table built by the blend gesture (lines 209–212):
`combined = zeros(512); for k in active: combined += circles[k].pulse;
combined /= len(active)`.  In exact arithmetic the accumulation order
is irrelevant, so the elementwise sum is a `Finset.sum`. -/
noncomputable def blend_combined (active : Finset String) (pulses : String → List ℝ) : List ℝ :=
  (List.range 512).map fun i => (∑ k ∈ active, (pulses k).getD i 0) / (active.card : ℝ)

/-- The blend gesture of `on_press` for key "5" (lines 207–213): when
`active_keys` is non-empty, the pulse table of `max(active_keys)` (the
lexicographically greatest active id) is overwritten with the
elementwise average of all active tables; all other tables are kept. -/
noncomputable def blend_pulses (active : Finset String) (pulses : String → List ℝ) :
    String → List ℝ :=
  if h : active.Nonempty then
    fun k => if k = active.max' h then blend_combined active pulses else pulses k
  else pulses

/-- A degenerate attractor state sitting at the Lorenz fixed point
x = y = z = 0, with the initial parameter values and entropy 0. -/
noncomputable def origin_circle : LorenzCircle :=
  { x := 0, y := 0, z := 0, sigma := 10, rho := 28, beta := 8 / 3,
    entropy := 0, pulse := List.replicate 512 0, last_update := 0 }

/-- The spec's description of `rebuildPulse`, with the three segment
lengths as the code actually produces them (170, 170, 172): the series
are the x/y/z coordinates after `k + 1` Euler steps for `k < 400`, the
nodes are the series means divided by 400, centered and
epsilon-normalized; the table is smoothed by a 21-tap Hann window in
'same' mode, cubic-distorted by `entropy * 0.4 * pulse^3`, and
epsilon-renormalized. -/
noncomputable def rebuild_pulse_spec (s : LorenzCircle) : List ℝ :=
  let xs := (List.range 400).map fun k => ((fun c => LorenzCircle.step c 0.005)^[k + 1] s).x
  let ys := (List.range 400).map fun k => ((fun c => LorenzCircle.step c 0.005)^[k + 1] s).y
  let zs := (List.range 400).map fun k => ((fun c => LorenzCircle.step c 0.005)^[k + 1] s).z
  let bottom := xs.sum / 400
  let center := ys.sum / 400
  let crest := zs.sum / 400
  let m := (bottom + center + crest) / 3
  let d := max (max |bottom - m| |center - m|) |crest - m| + 1e-6
  let table := List.replicate 170 ((bottom - m) / d) ++ List.replicate 170 ((center - m) / d) ++
    List.replicate 172 ((crest - m) / d)
  let smoothed := convSame table (hanning 21)
  let shaped := smoothed.map fun p => p + s.entropy * 0.4 * p ^ 3
  shaped.map fun p => p / (maxAbs shaped + 1e-6)

/-! Helper lemmas about `maxAbs`. -/

lemma maxAbs_nil : maxAbs [] = 0 := rfl

lemma maxAbs_cons (v : ℝ) (l : List ℝ) : maxAbs (v :: l) = max |v| (maxAbs l) := rfl

lemma maxAbs_nonneg (l : List ℝ) : 0 ≤ maxAbs l := by
  induction l with
  | nil => exact le_refl 0
  | cons v l ih => exact le_trans ih (by rw [maxAbs_cons]; exact le_max_right _ _)

lemma abs_le_maxAbs {v : ℝ} {l : List ℝ} (h : v ∈ l) : |v| ≤ maxAbs l := by
  induction l with
  | nil => cases h
  | cons w l ih =>
      rw [maxAbs_cons]
      rcases List.mem_cons.mp h with h1 | h1
      · exact h1 ▸ le_max_left _ _
      · exact le_trans (ih h1) (le_max_right _ _)

lemma maxAbs_replicate_zero (n : ℕ) : maxAbs (List.replicate n (0 : ℝ)) = 0 := by
  induction n with
  | zero => rfl
  | succ n ih => rw [List.replicate_succ, maxAbs_cons, ih]; simp

lemma maxAbs_zipWith_add (a b : List ℝ) :
    maxAbs (List.zipWith (· + ·) a b) ≤ maxAbs a + maxAbs b := by
  induction a generalizing b with
  | nil => simpa using maxAbs_nonneg b
  | cons v a ih =>
      cases b with
      | nil => simpa using maxAbs_nonneg (v :: a)
      | cons w b =>
          rw [List.zipWith_cons_cons, maxAbs_cons, maxAbs_cons, maxAbs_cons]
          apply max_le
          · exact le_trans (abs_add v w)
              (add_le_add (le_max_left _ _) (le_max_left _ _))
          · exact le_trans (ih b)
              (add_le_add (le_max_right _ _) (le_max_right _ _))

lemma maxAbs_map_div (l : List ℝ) {c : ℝ} (hc : 0 < c) :
    maxAbs (l.map fun v => v / c) = maxAbs l / c := by
  induction l with
  | nil => simp [maxAbs_nil]
  | cons v l ih =>
      rw [List.map_cons, maxAbs_cons, maxAbs_cons, ih, abs_div, abs_of_pos hc,
        max_div_div_right (le_of_lt hc)]

/-! Helper lemmas for the C1 cycle-length computations. -/

lemma spc_110 : samples_per_cycle 110 = 400 := by
  have hf : ⌊sample_rate / (110 : ℝ)⌋ = 400 := by
    rw [sample_rate, Int.floor_eq_iff] <;> norm_num
  rw [samples_per_cycle, pyInt, if_pos (by rw [sample_rate]; positivity), hf]
  decide

lemma spc_44100 : samples_per_cycle 44100 = 16 := by
  have hf : ⌊sample_rate / (44100 : ℝ)⌋ = 1 := by
    rw [sample_rate, Int.floor_eq_iff] <;> norm_num
  rw [samples_per_cycle, pyInt, if_pos (by rw [sample_rate]; positivity), hf]
  decide

lemma freq_of_one : freq_of "1" 0 = 110 := by
  simp [freq_of, base_frequencies, Real.rpow_zero]

/-- C1: the claim says `samplesPerCycle = round(sampleRate / frequency)` and
that voice "1" (110 Hz, pitch shift 0) yields 401.  The code truncates with
`int(...)` instead of rounding: at 110 Hz the code computes 400 while
rounding 44100/110 = 400.909… gives 401, so the claim as stated is false. -/
theorem spc_round_counterexample :
    samples_per_cycle 110 ≠ (round ((44100 : ℝ) / 110)).toNat ∧
    samples_per_cycle 110 = 400 ∧ round ((44100 : ℝ) / 110) = 401 := by
  have hr : round ((44100 : ℝ) / 110) = 401 := by
    rw [round_eq, Int.floor_eq_iff] <;> norm_num
  refine ⟨?_, spc_110, hr⟩
  rw [spc_110, hr]
  decide

/-- C1 (amended): for every positive frequency the cycle length is
`max 16 (int(sampleRate / frequency))` where `int` truncates (floor for a
positive ratio); with voice "1" active (110 Hz, pitch shift 0) the result
is 400 (not 401), and at frequency 44100 the minimum clamp gives exactly 16. -/
theorem spc_truncation_min16 :
    (∀ freq : ℝ, 0 < freq →
      samples_per_cycle freq = max 16 (Int.toNat ⌊sample_rate / freq⌋)) ∧
    freq_of "1" 0 = 110 ∧ samples_per_cycle (freq_of "1" 0) = 400 ∧
    samples_per_cycle 44100 = 16 := by
  refine ⟨?_, freq_of_one, ?_, spc_44100⟩
  · intro freq hfreq
    rw [samples_per_cycle, pyInt,
      if_pos (div_nonneg (by rw [sample_rate]; norm_num) (le_of_lt hfreq))]
  · rw [freq_of_one, spc_110]

/-- Witness for C1: the amended cycle-length formula applied at the
concrete frequency 110. -/
theorem spc_truncation_min16_w :
    (0 : ℝ) < 110 ∧
    samples_per_cycle 110 = max 16 (Int.toNat ⌊sample_rate / (110 : ℝ)⌋) :=
  ⟨by norm_num, spc_truncation_min16.1 110 (by norm_num)⟩

/-! Helper lemma for C4: the closed form of the entropy after `n` refreshes. -/

lemma entropy_iterate (s : LorenzCircle) (h0 : s.entropy = 0) (n : ℕ) :
    (LorenzCircle.update_entropy^[n] s).entropy = min ((n : ℝ) * 0.02) 1 := by
  induction n with
  | zero => simp [h0]
  | succ n ih =>
      rw [Function.iterate_succ_apply']
      show min ((LorenzCircle.update_entropy^[n] s).entropy + 0.02) 1 = _
      rw [ih]
      rcases le_total ((n : ℝ) * 0.02) 1 with h | h
      · rw [min_eq_left h]
        congr 1
        push_cast
        ring
      · rw [min_eq_right h, min_eq_right (by norm_num),
          min_eq_right (le_trans h (by push_cast; nlinarith))]

/-- C4: each `update_entropy` call sets entropy to `min(entropy + 0.02, 1)`
and recomputes sigma, rho, beta from the new entropy; starting from
entropy 0, the entropy after `n` calls stays in [0, 1], is monotonically
non-decreasing, and equals exactly 1 from the 50th call on. -/
theorem update_entropy_clamped_monotone (s : LorenzCircle) (h0 : s.entropy = 0) (n : ℕ) :
    ((s.update_entropy).entropy = min (s.entropy + 0.02) 1 ∧
      (s.update_entropy).sigma = 10 + 6 * (s.update_entropy).entropy ∧
      (s.update_entropy).rho = 28 + 20 * (s.update_entropy).entropy ∧
      (s.update_entropy).beta = 8 / 3 + 2.5 * (s.update_entropy).entropy) ∧
    0 ≤ (LorenzCircle.update_entropy^[n] s).entropy ∧
    (LorenzCircle.update_entropy^[n] s).entropy ≤ 1 ∧
    (LorenzCircle.update_entropy^[n] s).entropy ≤
      (LorenzCircle.update_entropy^[n + 1] s).entropy ∧
    (50 ≤ n → (LorenzCircle.update_entropy^[n] s).entropy = 1) := by
  refine ⟨⟨rfl, rfl, rfl, rfl⟩, ?_, ?_, ?_, ?_⟩
  · rw [entropy_iterate s h0]
    exact le_min (by positivity) (by norm_num)
  · rw [entropy_iterate s h0]
    exact min_le_right _ _
  · rw [entropy_iterate s h0, entropy_iterate s h0]
    apply min_le_min _ (le_refl 1)
    have : (n : ℝ) ≤ (n : ℝ) + 1 := by linarith
    push_cast
    nlinarith
  · intro hn
    rw [entropy_iterate s h0]
    apply min_eq_right
    have : (50 : ℝ) ≤ (n : ℝ) := by exact_mod_cast hn
    nlinarith

/-- Witness for C4: the freshly constructed oscillator has entropy 0, and
50 refreshes take it to exactly 1. -/
theorem update_entropy_clamped_monotone_w :
    (init_circle 0).entropy = 0 ∧
    (LorenzCircle.update_entropy^[50] (init_circle 0)).entropy = 1 :=
  ⟨rfl, (update_entropy_clamped_monotone (init_circle 0) rfl 50).2.2.2.2 (by norm_num)⟩

/-- C6: a render call whose snapshot of the active-voice set is empty
returns a buffer of exactly `frames` samples, all exactly zero. -/
theorem render_empty_silence (frames : ℕ) (now shift : ℝ)
    (circles : String → LorenzCircle) :
    (audio_callback frames now shift [] circles).length = frames ∧
    ∀ v ∈ audio_callback frames now shift [] circles, v = 0 := by
  constructor
  · simp [audio_callback, render_block]
  · intro v hv
    rw [audio_callback] at hv
    simp only [List.map_nil, render_block, if_pos] at hv
    exact List.eq_of_mem_replicate hv

/-- C9: `activate` and `deactivate` are idempotent — a second `activate`
of the same id is a no-op, as is `deactivate` of an id that is not
active — and neither changes any other id's membership. -/
theorem activate_deactivate_idempotent (k : String) (s : Finset String) :
    activate k (activate k s) = activate k s ∧
    deactivate k (deactivate k s) = deactivate k s ∧
    (k ∉ s → deactivate k s = s) ∧
    ∀ j, j ≠ k → ((j ∈ activate k s ↔ j ∈ s) ∧ (j ∈ deactivate k s ↔ j ∈ s)) := by
  refine ⟨?_, ?_, ?_, ?_⟩
  · by_cases hk : k ∈ base_keys
    · simp [activate, hk, Finset.insert_idem]
    · simp [activate, hk]
  · by_cases hk : k ∈ s
    · have h1 : deactivate k s = s.erase k := by rw [deactivate, if_pos hk]
      rw [h1, deactivate, if_neg (Finset.not_mem_erase k s)]
    · have h1 : deactivate k s = s := by rw [deactivate, if_neg hk]
      rw [h1, deactivate, if_neg hk]
  · intro hk
    rw [deactivate, if_neg hk]
  · intro j hj
    constructor
    · by_cases hk : k ∈ base_keys
      · simp [activate, hk, Finset.mem_insert, hj]
      · simp [activate, hk]
    · by_cases hk : k ∈ s
      · simp [deactivate, hk, Finset.mem_erase, hj]
      · simp [deactivate, hk]

/-- Witness for C9: deactivating "1" on the empty active set is a no-op,
and activating "1" does not make "2" active. -/
theorem activate_deactivate_idempotent_w :
    ("1" ∉ (∅ : Finset String) ∧ deactivate "1" ∅ = ∅) ∧
    ("2" ≠ "1" ∧ ("2" ∈ activate "1" (∅ : Finset String) ↔ "2" ∈ (∅ : Finset String))) :=
  ⟨⟨Finset.not_mem_empty "1",
      (activate_deactivate_idempotent "1" ∅).2.2.1 (Finset.not_mem_empty "1")⟩,
    ⟨by decide, ((activate_deactivate_idempotent "1" ∅).2.2.2 "2" (by decide)).1⟩⟩

/-! Helper lemma for C5: the lexicographically greatest element of the
active set {"1", "3"} is "3". -/

lemma max_pair_13 (h13 : ({"1", "3"} : Finset String).Nonempty) :
    ({"1", "3"} : Finset String).max' h13 = "3" := by
  apply le_antisymm
  · apply Finset.max'_le
    intro y hy
    simp only [Finset.mem_insert, Finset.mem_singleton] at hy
    rcases hy with h1 | h1
    · subst h1
      exact le_of_lt (by rw [String.lt_iff_toList_lt]; decide)
    · exact le_of_eq h1
  · apply Finset.le_max'
    simp

/-- C5: when the active set is non-empty, the blend gesture overwrites the
pulse table of the lexicographically greatest active id with the elementwise
average of all active tables and leaves every other table unchanged; in
particular with {"1", "3"} active, voice "3" receives the average and voice
"1" keeps its table. -/
theorem blend_assigns_max (active : Finset String) (pulses : String → List ℝ)
    (h : active.Nonempty) :
    blend_pulses active pulses (active.max' h) = blend_combined active pulses ∧
    (∀ k, k ≠ active.max' h → blend_pulses active pulses k = pulses k) ∧
    ∀ q : String → List ℝ,
      blend_pulses {"1", "3"} q "3" = blend_combined {"1", "3"} q ∧
      blend_pulses {"1", "3"} q "1" = q "1" := by
  refine ⟨?_, ?_, ?_⟩
  · simp only [blend_pulses, dif_pos h, if_pos rfl, if_true]
  · intro k hk
    simp only [blend_pulses, dif_pos h, if_neg hk]
  · intro q
    have h13 : ({"1", "3"} : Finset String).Nonempty := ⟨"1", by simp⟩
    constructor
    · simp only [blend_pulses, dif_pos h13, max_pair_13, if_pos rfl, if_true]
    · simp only [blend_pulses, dif_pos h13, max_pair_13]
      rw [if_neg (by decide)]

/-- Witness for C5: blending with only voice "1" active rewrites voice
"1" (the maximum of the singleton set) with the one-voice average. -/
theorem blend_assigns_max_w :
    blend_pulses {"1"} (fun _ => List.replicate 512 0) (({"1"} : Finset String).max' ⟨"1", by simp⟩) =
      blend_combined {"1"} (fun _ => List.replicate 512 0) :=
  (blend_assigns_max {"1"} (fun _ => List.replicate 512 0) ⟨"1", by simp⟩).1

/-- C8: `maybe_update now` refreshes (entropy update, pulse rebuild, and
`last_update := now`) exactly when more than 2 seconds have elapsed since
`last_update`; otherwise every field of the oscillator is unchanged. -/
theorem maybe_update_two_seconds (now : ℝ) (s : LorenzCircle) :
    (2 < now - s.last_update →
      LorenzCircle.maybe_update now s =
        { (s.update_entropy).build_pulse with last_update := now }) ∧
    (¬ 2 < now - s.last_update →
      (LorenzCircle.maybe_update now s).x = s.x ∧
      (LorenzCircle.maybe_update now s).y = s.y ∧
      (LorenzCircle.maybe_update now s).z = s.z ∧
      (LorenzCircle.maybe_update now s).sigma = s.sigma ∧
      (LorenzCircle.maybe_update now s).rho = s.rho ∧
      (LorenzCircle.maybe_update now s).beta = s.beta ∧
      (LorenzCircle.maybe_update now s).entropy = s.entropy ∧
      (LorenzCircle.maybe_update now s).pulse = s.pulse ∧
      (LorenzCircle.maybe_update now s).last_update = s.last_update) := by
  constructor
  · intro h
    rw [LorenzCircle.maybe_update, if_pos h]
  · intro h
    rw [LorenzCircle.maybe_update, if_neg h]
    exact ⟨rfl, rfl, rfl, rfl, rfl, rfl, rfl, rfl, rfl⟩

/-- Witness for C8: at `now = 5` an oscillator last refreshed at time 0
rebuilds, while at `now = 1` its pulse table is untouched. -/
theorem maybe_update_two_seconds_w :
    (LorenzCircle.maybe_update 5 origin_circle =
      { (origin_circle.update_entropy).build_pulse with last_update := 5 }) ∧
    (LorenzCircle.maybe_update 1 origin_circle).pulse = origin_circle.pulse :=
  ⟨(maybe_update_two_seconds 5 origin_circle).1 (by norm_num [origin_circle]),
    ((maybe_update_two_seconds 1 origin_circle).2 (by norm_num [origin_circle])).2.2.2.2.2.2.2.1⟩

/-! Helper lemmas about the render path. -/

lemma spc_pos (freq : ℝ) : 0 < samples_per_cycle freq :=
  lt_of_lt_of_le (by norm_num) (le_max_left 16 _)

lemma le_repeats_mul (frames spc : ℕ) (h : 0 < spc) :
    frames ≤ repeats frames spc * spc := by
  rw [repeats, mul_comm]
  have hmod := Nat.div_add_mod (frames + spc - 1) spc
  have hr : (frames + spc - 1) % spc ≤ spc - 1 :=
    Nat.le_pred_of_lt (Nat.mod_lt _ h)
  have h2 : frames + spc - 1 = frames + (spc - 1) := by omega
  have h1 : frames + (spc - 1) ≤ spc * ((frames + spc - 1) / spc) + (spc - 1) := by
    calc frames + (spc - 1) = frames + spc - 1 := h2.symm
      _ = spc * ((frames + spc - 1) / spc) + (frames + spc - 1) % spc := hmod.symm
      _ ≤ spc * ((frames + spc - 1) / spc) + (spc - 1) := Nat.add_le_add_left hr _
  exact Nat.le_of_add_le_add_right h1

lemma getD_of_all_zero {l : List ℝ} (hl : ∀ v ∈ l, v = 0) (i : ℕ) :
    l.getD i 0 = 0 := by
  induction l generalizing i with
  | nil => simp
  | cons a l ih =>
      cases i with
      | zero => simpa using hl a (by simp)
      | succ i =>
          rw [List.getD_cons_succ]
          exact ih (fun v hv => hl v (List.mem_cons_of_mem a hv)) i

lemma getLastD_of_all_zero {l : List ℝ} (hl : ∀ v ∈ l, v = 0) {d : ℝ} (hd : d = 0) :
    l.getLastD d = 0 := by
  induction l generalizing d with
  | nil => simpa using hd
  | cons a l ih =>
      rw [List.getLastD_cons]
      exact ih (fun v hv => hl v (List.mem_cons_of_mem a hv)) (hl a (by simp))

lemma interp_of_all_zero {l : List ℝ} (hl : ∀ v ∈ l, v = 0) (t : ℝ) :
    interp l t = 0 := by
  rw [interp]
  split_ifs with h1 h2 h3
  · rfl
  · cases l with
    | nil => rfl
    | cons a l => simpa using hl a (by simp)
  · exact getLastD_of_all_zero hl rfl
  · rw [getD_of_all_zero hl, getD_of_all_zero hl]
    ring

lemma flatten_replicate_zero (r m : ℕ) :
    List.flatten (List.replicate r (List.replicate m (0 : ℝ))) =
      List.replicate (r * m) 0 := by
  induction r with
  | zero => simp
  | succ r ih =>
      rw [List.replicate_succ, List.flatten_cons, ih, Nat.succ_mul, Nat.add_comm,
        ← List.replicate_add]

lemma resample_cycle_zero (freq : ℝ) :
    resample_cycle freq (List.replicate 512 0) =
      List.replicate (samples_per_cycle freq) 0 := by
  apply List.eq_replicate_iff.mpr
  constructor
  · rw [resample_cycle, List.length_map, List.length_range]
  · intro b hb
    rw [resample_cycle] at hb
    rcases List.mem_map.mp hb with ⟨i, _, hi⟩
    rw [← hi]
    exact interp_of_all_zero (fun v hv => List.eq_of_mem_replicate hv) _

lemma voice_wave_zero (frames : ℕ) (freq : ℝ) :
    voice_wave frames freq (List.replicate 512 0) = List.replicate frames 0 := by
  rw [voice_wave, resample_cycle_zero, flatten_replicate_zero, List.take_replicate,
    Nat.min_eq_left (le_repeats_mul frames _ (spc_pos freq))]

lemma zipWith_add_replicate_zero {l : List ℝ} {frames : ℕ} (h : l.length = frames) :
    List.zipWith (· + ·) l (List.replicate frames 0) = l := by
  subst h
  induction l with
  | nil => rfl
  | cons a l ih =>
      rw [List.length_cons, List.replicate_succ, List.zipWith_cons_cons, ih, add_zero]

lemma foldl_zip_bound {α : Type} (w : α → List ℝ) (voices : List α) :
    ∀ acc : List ℝ,
      maxAbs (voices.foldl (fun a v => List.zipWith (· + ·) a (w v)) acc) ≤
        maxAbs acc + (voices.map fun v => maxAbs (w v)).sum := by
  induction voices with
  | nil => intro acc; simp
  | cons v voices ih =>
      intro acc
      rw [List.foldl_cons, List.map_cons, List.sum_cons]
      calc maxAbs (voices.foldl (fun a v => List.zipWith (· + ·) a (w v))
            (List.zipWith (· + ·) acc (w v))) ≤
          maxAbs (List.zipWith (· + ·) acc (w v)) +
            (voices.map fun v => maxAbs (w v)).sum := ih _
        _ ≤ maxAbs acc + maxAbs (w v) + (voices.map fun v => maxAbs (w v)).sum :=
            add_le_add_right (maxAbs_zipWith_add acc (w v)) _
        _ = maxAbs acc + (maxAbs (w v) + (voices.map fun v => maxAbs (w v)).sum) := by
            ring

/-- C7: the mixed block divides the elementwise voice sum by the number of
active voices, so its peak absolute amplitude is at most `1/N` times the
sum of the per-voice peak absolute amplitudes of the tiled waveforms. -/
theorem render_peak_bound (frames : ℕ) (now shift : ℝ) (keys : List String)
    (circles : String → LorenzCircle) (h : keys ≠ []) :
    maxAbs (audio_callback frames now shift keys circles) ≤
      (keys.map fun k => maxAbs (voice_wave frames (freq_of k shift)
        ((LorenzCircle.maybe_update now (circles k)).pulse))).sum / (keys.length : ℝ) := by
  have hne : (keys.map fun k =>
      (freq_of k shift, (LorenzCircle.maybe_update now (circles k)).pulse)) ≠ [] := by
    simpa using h
  have hlen : (0 : ℝ) < (keys.length : ℝ) := by
    have : 0 < keys.length := List.length_pos.mpr h
    exact_mod_cast this
  rw [audio_callback, render_block, if_neg hne, List.length_map,
    maxAbs_map_div _ hlen]
  apply (div_le_div_right hlen).mpr
  calc maxAbs ((keys.map fun k =>
        (freq_of k shift, (LorenzCircle.maybe_update now (circles k)).pulse)).foldl
          (fun acc v => List.zipWith (· + ·) acc (voice_wave frames v.1 v.2))
          (List.replicate frames 0)) ≤
      maxAbs (List.replicate frames 0) +
        ((keys.map fun k =>
          (freq_of k shift, (LorenzCircle.maybe_update now (circles k)).pulse)).map
            fun v => maxAbs (voice_wave frames v.1 v.2)).sum :=
        foldl_zip_bound _ _ _
    _ = (keys.map fun k => maxAbs (voice_wave frames (freq_of k shift)
          ((LorenzCircle.maybe_update now (circles k)).pulse))).sum := by
        rw [maxAbs_replicate_zero, zero_add, List.map_map]
        rfl

/-- Witness for C7: the averaging bound applied to the single active
voice "1" backed by a fresh oscillator. -/
theorem render_peak_bound_w :
    (["1"] : List String) ≠ [] ∧
    maxAbs (audio_callback 4 0 0 ["1"] fun _ => origin_circle) ≤
      ((["1"] : List String).map fun k => maxAbs (voice_wave 4 (freq_of k 0)
        ((LorenzCircle.maybe_update 0 (origin_circle)).pulse))).sum /
        ((["1"] : List String).length : ℝ) :=
  ⟨List.cons_ne_nil "1" [], render_peak_bound 4 0 0 ["1"] (fun _ => origin_circle)
    (List.cons_ne_nil "1" [])⟩

/-- C10: a freshly constructed oscillator carries an all-zero 512-sample
pulse table; the resample-and-tile of an all-zero table is all-zero, so
adding it to a sum buffer of matching length changes nothing; no refresh
can fire within 2 seconds of construction, so any mix rendered from fresh
oscillators before that is exact silence. -/
theorem fresh_oscillator_silent (t0 : ℝ) :
    (init_circle t0).pulse = List.replicate 512 0 ∧
    (∀ frames : ℕ, ∀ freq : ℝ,
      voice_wave frames freq (List.replicate 512 0) = List.replicate frames 0 ∧
      ∀ total : List ℝ, total.length = frames →
        List.zipWith (· + ·) total (voice_wave frames freq (List.replicate 512 0)) = total) ∧
    (∀ now : ℝ, now - t0 ≤ 2 →
      LorenzCircle.maybe_update now (init_circle t0) = init_circle t0) ∧
    ∀ frames : ℕ, ∀ now shift : ℝ, ∀ keys : List String, now - t0 ≤ 2 →
      audio_callback frames now shift keys (fun _ => init_circle t0) =
        List.replicate frames 0 := by
  have hmu : ∀ now : ℝ, now - t0 ≤ 2 →
      LorenzCircle.maybe_update now (init_circle t0) = init_circle t0 := by
    intro now hnow
    have h1 : ¬ 2 < now - (init_circle t0).last_update := by
      rw [show (init_circle t0).last_update = t0 from rfl]
      exact not_lt.mpr hnow
    rw [LorenzCircle.maybe_update, if_neg h1]
  refine ⟨rfl, ?_, hmu, ?_⟩
  · intro frames freq
    refine ⟨voice_wave_zero frames freq, ?_⟩
    intro total htotal
    rw [voice_wave_zero, ← htotal, zipWith_add_replicate_zero rfl]
  · intro frames now shift keys hnow
    rw [audio_callback]
    by_cases hk : keys = []
    · subst hk
      rw [List.map_nil, render_block, if_pos rfl]
    · have hne : (keys.map fun k =>
          (freq_of k shift, (LorenzCircle.maybe_update now (init_circle t0)).pulse)) ≠ [] := by
        simpa using hk
      have hfold : ∀ voices : List (ℝ × List ℝ),
          (∀ v ∈ voices, v.2 = List.replicate 512 0) →
          voices.foldl (fun acc v => List.zipWith (· + ·) acc (voice_wave frames v.1 v.2))
            (List.replicate frames 0) = List.replicate frames 0 := by
        intro voices
        induction voices with
        | nil => intro _; rfl
        | cons v voices ih =>
            intro hv
            rw [List.foldl_cons, hv v (List.mem_cons_self v voices), voice_wave_zero,
              zipWith_add_replicate_zero (List.length_replicate _ _)]
            exact ih fun w hw => hv w (List.mem_cons_of_mem v hw)
      have hz : ∀ v ∈ (keys.map fun k =>
          (freq_of k shift, (LorenzCircle.maybe_update now (init_circle t0)).pulse)),
          v.2 = List.replicate 512 0 := by
        intro v hv
        rcases List.mem_map.mp hv with ⟨k, _, hkv⟩
        rw [← hkv]
        show (LorenzCircle.maybe_update now (init_circle t0)).pulse = _
        rw [hmu now hnow]
        rfl
      rw [render_block, if_neg hne, hfold _ hz, List.map_replicate, zero_div]

/-- Witness for C10: at time 1 (≤ 2 seconds after construction at time 0)
a block mixed from fresh oscillators with voice "1" held is exact silence. -/
theorem fresh_oscillator_silent_w :
    (1 : ℝ) - 0 ≤ 2 ∧
    audio_callback 4 1 0 ["1"] (fun _ => init_circle 0) = List.replicate 4 0 :=
  ⟨by norm_num, (fresh_oscillator_silent 0).2.2.2 4 1 0 ["1"] (by norm_num)⟩

/-! Helper lemmas for C2 and C3: the recording loop as iteration of
`step`, fields preserved by stepping, and the Lorenz fixed point. -/

lemma record_spec (dt : ℝ) (n : ℕ) (s : LorenzCircle) :
    record dt n s =
      ((fun c => LorenzCircle.step c dt)^[n] s,
        ((List.range n).map fun k => ((fun c => LorenzCircle.step c dt)^[k + 1] s).x,
          (List.range n).map fun k => ((fun c => LorenzCircle.step c dt)^[k + 1] s).y,
          (List.range n).map fun k => ((fun c => LorenzCircle.step c dt)^[k + 1] s).z)) := by
  induction n generalizing s with
  | zero => rfl
  | succ n ih =>
      have hgen : ∀ g : LorenzCircle → ℝ,
          g (s.step dt) :: ((List.range n).map
              fun k => g ((fun c => LorenzCircle.step c dt)^[k + 1] (s.step dt))) =
            (List.range (n + 1)).map
              fun k => g ((fun c => LorenzCircle.step c dt)^[k + 1] s) := by
        intro g
        rw [List.range_succ_eq_map, List.map_cons, List.map_map]
        congr 1
      simp only [record]
      rw [ih (s.step dt)]
      simp only [Prod.mk.injEq]
      exact ⟨(Function.iterate_succ_apply _ n s).symm,
        hgen LorenzCircle.x, hgen LorenzCircle.y, hgen LorenzCircle.z⟩

lemma iterate_step_keeps (dt : ℝ) (n : ℕ) (s : LorenzCircle) :
    ((fun c => LorenzCircle.step c dt)^[n] s).sigma = s.sigma ∧
    ((fun c => LorenzCircle.step c dt)^[n] s).rho = s.rho ∧
    ((fun c => LorenzCircle.step c dt)^[n] s).beta = s.beta ∧
    ((fun c => LorenzCircle.step c dt)^[n] s).entropy = s.entropy ∧
    ((fun c => LorenzCircle.step c dt)^[n] s).pulse = s.pulse ∧
    ((fun c => LorenzCircle.step c dt)^[n] s).last_update = s.last_update := by
  induction n with
  | zero => exact ⟨rfl, rfl, rfl, rfl, rfl, rfl⟩
  | succ n ih =>
      rw [Function.iterate_succ_apply']
      exact ih

lemma step_fixed {s : LorenzCircle} (hx : s.x = 0) (hy : s.y = 0) (hz : s.z = 0)
    (dt : ℝ) : s.step dt = s := by
  apply LorenzCircle.ext <;> simp [LorenzCircle.step, hx, hy, hz]

lemma record_fixed (dt : ℝ) (n : ℕ) {s : LorenzCircle} (hx : s.x = 0) (hy : s.y = 0)
    (hz : s.z = 0) :
    record dt n s =
      (s, (List.replicate n 0, List.replicate n 0, List.replicate n 0)) := by
  induction n with
  | zero => rfl
  | succ n ih =>
      simp only [record, step_fixed hx hy hz, ih, hx, hy, hz, List.replicate_succ]

lemma mean_replicate_zero (n : ℕ) : mean (List.replicate n (0 : ℝ)) = 0 := by
  rw [mean, List.sum_replicate]
  simp

lemma agetZ_replicate_zero (n : ℕ) (t : ℤ) : agetZ (List.replicate n (0 : ℝ)) t = 0 := by
  rw [agetZ]
  split_ifs with h
  · exact getD_of_all_zero (fun v hv => List.eq_of_mem_replicate hv) _
  · rfl

lemma convSame_replicate_zero (n : ℕ) (v : List ℝ) :
    convSame (List.replicate n (0 : ℝ)) v = List.replicate n 0 := by
  apply List.eq_replicate_iff.mpr
  constructor
  · rw [convSame, List.length_map, List.length_range, List.length_replicate]
  · intro b hb
    rw [convSame] at hb
    rcases List.mem_map.mp hb with ⟨i, _, hi⟩
    rw [← hi]
    apply Finset.sum_eq_zero
    intro j _
    rw [agetZ_replicate_zero, mul_zero]

lemma build_stepped_zero : build_stepped 0 0 0 = List.replicate 512 (0 : ℝ) := by
  rw [build_stepped, ← List.replicate_add, ← List.replicate_add]

lemma shape_cubic_zero (e : ℝ) (n : ℕ) :
    shape_cubic e (List.replicate n 0) = List.replicate n 0 := by
  rw [shape_cubic, List.map_replicate]
  norm_num

lemma normalize_eps_zero (n : ℕ) :
    normalize_eps (List.replicate n (0 : ℝ)) = List.replicate n 0 := by
  rw [normalize_eps, List.map_replicate, zero_div]

lemma pulse_from_series_zero (e : ℝ) :
    pulse_from_series e (List.replicate 400 0) (List.replicate 400 0)
      (List.replicate 400 0) = List.replicate 512 0 := by
  simp only [pulse_from_series, mean_replicate_zero]
  have h0 : (0 + 0 + 0 : ℝ) / 3 = 0 := by norm_num
  rw [h0, sub_zero, zero_div, build_stepped_zero, convSame_replicate_zero,
    shape_cubic_zero, normalize_eps_zero]

/-- C3 counterexample: at the Lorenz fixed point x = y = z = 0 (a valid
attractor state with entropy 0 ∈ [0, 1]) the rebuilt pulse table is
identically zero, so its maximum absolute value is 0 — not 1 within any
floating-point tolerance.  The claimed invariant fails for degenerate
states because the epsilon-guarded division leaves a zero table at zero. -/
theorem build_pulse_counterexample :
    origin_circle.entropy = 0 ∧
    (origin_circle.build_pulse).pulse = List.replicate 512 0 ∧
    maxAbs ((origin_circle.build_pulse).pulse) = 0 := by
  have hrec : record 0.005 400 origin_circle =
      (origin_circle,
        (List.replicate 400 0, List.replicate 400 0, List.replicate 400 0)) :=
    record_fixed 0.005 400 rfl rfl rfl
  have hb : (origin_circle.build_pulse).pulse = List.replicate 512 0 := by
    show pulse_from_series origin_circle.entropy (record 0.005 400 origin_circle).2.1
      (record 0.005 400 origin_circle).2.2.1 (record 0.005 400 origin_circle).2.2.2 = _
    rw [hrec]
    exact pulse_from_series_zero _
  exact ⟨rfl, hb, by rw [hb]; exact maxAbs_replicate_zero 512⟩

lemma normalize_eps_bound (l : List ℝ) : ∀ p ∈ normalize_eps l, |p| < 1 := by
  intro p hp
  rcases List.mem_map.mp hp with ⟨q, hq, rfl⟩
  have h1 : |q| ≤ maxAbs l := abs_le_maxAbs hq
  have h2 : (0 : ℝ) < maxAbs l + 1e-6 :=
    add_pos_of_nonneg_of_pos (maxAbs_nonneg l) (by norm_num)
  rw [abs_div, abs_of_pos h2]
  exact (div_lt_one h2).mpr (by nlinarith)

lemma build_stepped_length (n0 n1 n2 : ℝ) : (build_stepped n0 n1 n2).length = 512 := by
  rw [build_stepped]
  simp

lemma pulse_from_series_shape (e : ℝ) (xs ys zs : List ℝ) :
    ∃ l : List ℝ, pulse_from_series e xs ys zs = normalize_eps l ∧ l.length = 512 := by
  refine ⟨shape_cubic e (convSame (build_stepped _ _ _) (hanning 21)), rfl, ?_⟩
  rw [shape_cubic, List.length_map, convSame, List.length_map, List.length_range,
    build_stepped_length]

/-- C3 (amended): for every attractor state, the table produced by
`build_pulse` has exactly 512 samples and every sample has absolute value
strictly below 1 (the final division by `peak + 1e-6` yields max abs
`M/(M + 1e-6) < 1`, which is within floating-point tolerance of 1 only
when the pre-normalization peak `M` is not vanishingly small; at the
Lorenz fixed point the table is identically zero).  All values are finite,
which in the exact-arithmetic model is automatic. -/
theorem build_pulse_norm (s : LorenzCircle) :
    ((s.build_pulse).pulse).length = 512 ∧
    ∀ p ∈ (s.build_pulse).pulse, |p| < 1 := by
  have hp : (s.build_pulse).pulse =
      pulse_from_series s.entropy (record 0.005 400 s).2.1
        (record 0.005 400 s).2.2.1 (record 0.005 400 s).2.2.2 := rfl
  rcases pulse_from_series_shape s.entropy (record 0.005 400 s).2.1
    (record 0.005 400 s).2.2.1 (record 0.005 400 s).2.2.2 with ⟨l, hl, hlen⟩
  rw [hp, hl]
  exact ⟨by rw [normalize_eps, List.length_map, hlen], normalize_eps_bound l⟩

/-- C2 counterexample: the claim says the 512-sample table is filled in
"three equal contiguous thirds", but 512 is not divisible by 3 — the code
uses `third = 512 // 3 = 170` and the last segment receives the remaining
172 samples, so no decomposition into three equal constant runs exists
(shown here for the concrete nodes 0, 1, 2). -/
theorem build_stepped_not_equal_thirds :
    ¬ ∃ (k : ℕ) (a b c : ℝ), build_stepped 0 1 2 =
      List.replicate k a ++ (List.replicate k b ++ List.replicate k c) := by
  rintro ⟨k, a, b, c, h⟩
  have hl := congrArg List.length h
  simp only [build_stepped, List.length_append, List.length_replicate] at hl
  omega

/-- Closed form of `build_pulse`: the end state is the 400-fold iterate of
one Euler step and the recorded series are the coordinate trajectories. -/
lemma build_pulse_eq (s : LorenzCircle) :
    s.build_pulse =
      { x := ((fun c => LorenzCircle.step c 0.005)^[400] s).x
        y := ((fun c => LorenzCircle.step c 0.005)^[400] s).y
        z := ((fun c => LorenzCircle.step c 0.005)^[400] s).z
        sigma := ((fun c => LorenzCircle.step c 0.005)^[400] s).sigma
        rho := ((fun c => LorenzCircle.step c 0.005)^[400] s).rho
        beta := ((fun c => LorenzCircle.step c 0.005)^[400] s).beta
        entropy := ((fun c => LorenzCircle.step c 0.005)^[400] s).entropy
        pulse := pulse_from_series s.entropy
          ((List.range 400).map fun k => ((fun c => LorenzCircle.step c 0.005)^[k + 1] s).x)
          ((List.range 400).map fun k => ((fun c => LorenzCircle.step c 0.005)^[k + 1] s).y)
          ((List.range 400).map fun k => ((fun c => LorenzCircle.step c 0.005)^[k + 1] s).z)
        last_update := ((fun c => LorenzCircle.step c 0.005)^[400] s).last_update } := by
  simp only [LorenzCircle.build_pulse, record_spec]

/-- C2 (amended): `build_pulse` replaces the pulse field with the spec
pipeline — 400 Euler iterations of `step(dt = 0.005)` recording the x, y,
z series; the three series means as nodes, centered and
epsilon-normalized; a 512-sample table filled in three contiguous
segments of lengths 170, 170 and 172 (not equal thirds: `512 // 3 = 170`
and the last segment takes the remainder), each constant at one node's
value; convolution with a 21-tap Hann window in same-length mode; adding
`entropy * 0.4 * pulse^3`; and epsilon-renormalizing — while advancing
x, y, z by those same 400 steps and leaving every other field
unchanged. -/
theorem build_pulse_refines_spec (s : LorenzCircle) :
    (s.build_pulse).pulse = rebuild_pulse_spec s ∧
    (s.build_pulse).x = ((fun c => LorenzCircle.step c 0.005)^[400] s).x ∧
    (s.build_pulse).y = ((fun c => LorenzCircle.step c 0.005)^[400] s).y ∧
    (s.build_pulse).z = ((fun c => LorenzCircle.step c 0.005)^[400] s).z ∧
    (s.build_pulse).sigma = s.sigma ∧
    (s.build_pulse).rho = s.rho ∧
    (s.build_pulse).beta = s.beta ∧
    (s.build_pulse).entropy = s.entropy ∧
    (s.build_pulse).last_update = s.last_update := by
  have hk := iterate_step_keeps 0.005 400 s
  rw [build_pulse_eq]
  refine ⟨?_, ?_, ?_, ?_, ?_, ?_, ?_, ?_, ?_⟩ <;> dsimp only
  · simp only [pulse_from_series, rebuild_pulse_spec, mean, normalize_eps, shape_cubic,
      build_stepped, List.length_map, List.length_range, Nat.cast_ofNat]
  · exact hk.1
  · exact hk.2.1
  · exact hk.2.2.1
  · exact hk.2.2.2.1
  · exact hk.2.2.2.2.2

end DriftATone
